import Mathlib

/-!
Verification of `xmind_to_docx.py`: a shallow embedding of the
XMind → DOCX converter (archive reading, resource extraction, tree
normalisation and the recursive document projection), together with
proofs of the specified properties.
-/

namespace XmindToDocx

/-! ### String helpers

Python string operations used by the converter, modelled over `List Char`:
`startswith`, `endswith`, `str.strip()` (which removes Unicode whitespace
from both ends) and the code-point comparison `ch >= " "`. -/

/-- Python `s.startswith(p)`, modelled as a character-list prefix test. -/
def strStartsWith (s p : String) : Bool :=
  p.toList.isPrefixOf s.toList

/-- Python `s.endswith(p)`, modelled as a character-list suffix test. -/
def strEndsWith (s p : String) : Bool :=
  p.toList.isSuffixOf s.toList

/-- Python `str.isspace` for a single character: the Unicode whitespace
code points stripped by `str.strip()`. -/
def pyIsSpace (c : Char) : Bool :=
  let n := c.toNat
  (9 ≤ n && n ≤ 13) || (28 ≤ n && n ≤ 31) || n == 32 || n == 133 || n == 160 ||
    n == 5760 || (8192 ≤ n && n ≤ 8202) || n == 8232 || n == 8233 || n == 8239 ||
    n == 8287 || n == 12288

/-- The character filter of `add_topic`: `ch >= " " or ch in "\t\n\r"`. -/
def keepChar (c : Char) : Bool :=
  (' ' ≤ c) || c == '\t' || c == '\n' || c == '\r'

/-- Python `str.strip()` on a character list: drop whitespace from the
front, then from the back. -/
def pyStrip (l : List Char) : List Char :=
  List.rdropWhile pyIsSpace (List.dropWhile pyIsSpace l)

/-- Title sanitisation from `add_topic` line 100:
`"".join(ch for ch in raw_title if (ch >= " " or ch in "\t\n\r")).strip() or "."`. -/
def sanitize_title (s : String) : String :=
  if String.mk (pyStrip (s.toList.filter keepChar)) = "" then "."
  else String.mk (pyStrip (s.toList.filter keepChar))

/-! ### Data model

A topic node of the parsed `content.json` (or of the legacy library's
output).  The `title` value distinguishes an absent key, a JSON null and a
string, because `str(topic.get("title", "") or "")` treats them
differently from other strings.  Children live in two wire shapes at
once: the grouped mapping `"topics": \x7bgroup: [node, ...]\x7d` and the
`"children": \x7b"attached": [...], "detached": [...]\x7d` mapping. -/

/-- The `title` entry of a topic mapping: absent key, JSON `null`, or a string. -/
inductive TitleVal where
  | absent
  | null
  | str (s : String)
deriving DecidableEq, Repr

/-- The `image` sub-mapping of a topic: it may or may not carry a `src`. -/
structure Image where
  src : Option String
deriving DecidableEq, Repr

mutual
/-- A topic node. Fields: title, optional image, the grouped `topics`
mapping (insertion-ordered), and the `attached` / `detached` lists of the
`children` mapping.  An absent mapping is modelled by the empty list,
which Python's `.get(key, default)` makes behaviourally identical. -/
inductive Node where
  | mk (title : TitleVal) (image : Option Image) (topics : GroupList)
      (attached : NodeList) (detached : NodeList)

/-- The insertion-ordered `topics` mapping: group name to list of nodes. -/
inductive GroupList where
  | nil
  | cons (name : String) (group : NodeList) (rest : GroupList)

/-- A JSON list of nodes. -/
inductive NodeList where
  | nil
  | cons (head : Node) (tail : NodeList)
end

/-- View a `NodeList` as a `List Node`. -/
def NodeList.toList : NodeList → List Node
  | .nil => []
  | .cons h t => h :: t.toList

/-- All nodes of all groups of a `topics` mapping, in group-iteration
order: `for group in topic.get("topics", \x7b\x7d).values(): for child in group`. -/
def GroupList.childNodes : GroupList → List Node
  | .nil => []
  | .cons _ g rest => g.toList ++ rest.childNodes

/-- Function `iter_children` (lines 80–88): all grouped children in group order,
then the `attached` list, then the `detached` list. -/
def iter_children : Node → List Node
  | .mk _ _ tp att det => tp.childNodes ++ (att.toList ++ det.toList)

/-- Line 99, `str(topic.get("title", "") or "")`: an absent key or a
null (falsy) value becomes the empty string. -/
def raw_title : Node → String
  | .mk ti _ _ _ _ =>
    match ti with
    | .absent => ""
    | .null => ""
    | .str s => s

/-- Lines 115–116, `(topic.get("image") or \x7b\x7d).get("src")`. -/
def imageSrc : Node → Option String
  | .mk _ img _ _ _ =>
    match img with
    | none => none
    | some i => i.src

/-! ### Document model and sink behaviour

The python-docx `Document` is an append-only sequence of blocks.  The
projection is modelled as a pure function returning the list of blocks it
appends.  Fallible sink operations (`imghdr.what`, `add_picture`, setting
`left_indent`) are modelled by oracles in a `Sink` record, so that the
swallow-on-error behaviour can be stated for every possible sink outcome.
Floating-point inch widths are modelled as rationals. -/

/-- One block appended to the document: a heading, a styled paragraph
(with its optional left indent in inches), an inline picture (bytes and
width in inches), or a field instruction (the TOC field). -/
inductive Block where
  | heading (text : String) (level : Nat)
  | para (text : String) (indent : Option ℚ)
  | picture (data : List Nat) (width : ℚ)
  | field (instr : String)
deriving DecidableEq, Repr

/-- Oracles for the fallible library operations used by `add_topic`:
whether assigning `left_indent` at a given level raises (`indentOk`),
what `imghdr.what` returns on given bytes (`none` models an exception,
`some k` the returned kind, itself `none` for an unrecognised format),
and whether `document.add_picture` succeeds on given bytes. -/
structure Sink where
  indentOk : Nat → Bool
  sniff : List Nat → Option (Option String)
  pictureOk : List Nat → Bool

/-- The raster formats accepted by `add_topic` line 122:
`kind in \x7b"png", "jpeg", "bmp", "gif"\x7d` (where `kind` may be `None`). -/
def supportedKind (kind : Option String) : Bool :=
  kind == some "png" || kind == some "jpeg" || kind == some "bmp" || kind == some "gif"

/-- The image-embedding step of `add_topic` (lines 114–129): look up the
`src` in the assets mapping, sniff the bytes, and embed only a supported
raster image; every failure (falsy src or data, sniffing exception,
unsupported kind, `add_picture` rejection) yields no block. -/
def picture_blocks (sk : Sink) (assets : String → Option (List Nat))
    (t : Node) (img_width_inch : ℚ) : List Block :=
  match imageSrc t with
  | none => []
  | some src =>
    if src = "" then []
    else
      match assets src with
      | none => []
      | some data =>
        if data = [] then []
        else
          match sk.sniff data with
          | none => []
          | some kind =>
            if supportedKind kind then
              if sk.pictureOk data then [Block.picture data img_width_inch] else []
            else []

/-- The text block `add_topic` emits for the node itself (lines 104–112):
a heading at `min(level, 9)` when `level == 1` or the node is not a leaf,
otherwise a `List Bullet` paragraph whose left indent
`0.25 * max(level - 1, 0)` is dropped when the sink raises. -/
def text_block (sk : Sink) (t : Node) (level : Nat) : Block :=
  if level = 1 ∨ (iter_children t).isEmpty = false then
    Block.heading (sanitize_title (raw_title t)) (min level 9)
  else
    Block.para (sanitize_title (raw_title t))
      (if sk.indentOk level then some ((1 / 4 : ℚ) * max ((level : ℚ) - 1) 0) else none)

mutual
/-- Function `add_topic` (lines 91–132): emit the node's text block, then its
picture (if any), then recurse into every child produced by
`iter_children`, at `level + 1`, with the same assets and image width. -/
def add_topic (sk : Sink) (assets : String → Option (List Nat))
    (t : Node) (level : Nat) (img_width_inch : ℚ) : List Block :=
  match t with
  | .mk ti im tp att det =>
    text_block sk (.mk ti im tp att det) level
      :: picture_blocks sk assets (.mk ti im tp att det) img_width_inch
      ++ (add_topic_groups sk assets tp (level + 1) img_width_inch
          ++ (add_topic_list sk assets att (level + 1) img_width_inch
              ++ add_topic_list sk assets det (level + 1) img_width_inch))

/-- Recurse over the groups of the `topics` mapping in order. -/
def add_topic_groups (sk : Sink) (assets : String → Option (List Nat))
    (gl : GroupList) (level : Nat) (img_width_inch : ℚ) : List Block :=
  match gl with
  | .nil => []
  | .cons _ g rest =>
    add_topic_list sk assets g level img_width_inch
      ++ add_topic_groups sk assets rest level img_width_inch

/-- Recurse over a list of child nodes in order. -/
def add_topic_list (sk : Sink) (assets : String → Option (List Nat))
    (nl : NodeList) (level : Nat) (img_width_inch : ℚ) : List Block :=
  match nl with
  | .nil => []
  | .cons c rest =>
    add_topic sk assets c level img_width_inch
      ++ add_topic_list sk assets rest level img_width_inch
end

/-- Is this block a heading or a paragraph (a text block, as opposed to a
picture or a field)? -/
def isTextBlock : Block → Bool
  | .heading _ _ => true
  | .para _ _ => true
  | .picture _ _ => false
  | .field _ => false

/-- Is this block a field instruction (the TOC field)? -/
def isFieldBlock : Block → Bool
  | .field _ => true
  | _ => false

/-- The text carried by a heading or paragraph block. -/
def blockText : Block → Option String
  | .heading t _ => some t
  | .para t _ => some t
  | .picture _ _ => none
  | .field _ => none

mutual
/-- The number of nodes in a subtree. -/
def Node.count : Node → Nat
  | .mk _ _ tp att det => 1 + (tp.count + (att.count + det.count))

/-- The number of nodes in all groups of a `topics` mapping. -/
def GroupList.count : GroupList → Nat
  | .nil => 0
  | .cons _ g rest => g.count + rest.count

/-- The number of nodes in a node list. -/
def NodeList.count : NodeList → Nat
  | .nil => 0
  | .cons c rest => c.count + rest.count
end

mutual
/-- A structural size of a subtree, used as sufficient fuel for the
fuel-indexed projector. -/
def Node.fsize : Node → Nat
  | .mk _ _ tp att det => 1 + (tp.fsize + (att.fsize + det.fsize))

/-- Structural size of a `topics` mapping. -/
def GroupList.fsize : GroupList → Nat
  | .nil => 1
  | .cons _ g rest => 1 + (g.fsize + rest.fsize)

/-- Structural size of a node list. -/
def NodeList.fsize : NodeList → Nat
  | .nil => 1
  | .cons c rest => 1 + (c.fsize + rest.fsize)
end

mutual
/-- A fuel-indexed variant of `add_topic` that spends one unit of fuel at
every call and gives up (returns `none`) when the fuel runs out.  It
witnesses that the recursion of `add_topic` bottoms out on every finite
tree. -/
def add_topic_fuel (sk : Sink) (assets : String → Option (List Nat)) :
    Nat → Node → Nat → ℚ → Option (List Block)
  | 0, _, _, _ => none
  | fuel + 1, .mk ti im tp att det, level, w => do
    let a ← add_topic_groups_fuel sk assets fuel tp (level + 1) w
    let b ← add_topic_list_fuel sk assets fuel att (level + 1) w
    let c ← add_topic_list_fuel sk assets fuel det (level + 1) w
    pure (text_block sk (.mk ti im tp att det) level
      :: picture_blocks sk assets (.mk ti im tp att det) w ++ (a ++ (b ++ c)))

/-- Fuel-indexed recursion over the groups of a `topics` mapping. -/
def add_topic_groups_fuel (sk : Sink) (assets : String → Option (List Nat)) :
    Nat → GroupList → Nat → ℚ → Option (List Block)
  | 0, _, _, _ => none
  | _ + 1, .nil, _, _ => some []
  | fuel + 1, .cons _ g rest, level, w => do
    let a ← add_topic_list_fuel sk assets fuel g level w
    let b ← add_topic_groups_fuel sk assets fuel rest level w
    pure (a ++ b)

/-- Fuel-indexed recursion over a list of child nodes. -/
def add_topic_list_fuel (sk : Sink) (assets : String → Option (List Nat)) :
    Nat → NodeList → Nat → ℚ → Option (List Block)
  | 0, _, _, _ => none
  | _ + 1, .nil, _, _ => some []
  | fuel + 1, .cons c rest, level, w => do
    let a ← add_topic_fuel sk assets fuel c level w
    let b ← add_topic_list_fuel sk assets fuel rest level w
    pure (a ++ b)
end

/-! ### TOC insertion and the document pipeline -/

/-- The field instruction set by `add_toc` (line 35). -/
def toc_instr : String := "TOC \\o \x221-3\x22 \\h \\z \\u"

/-- Function `add_toc` (lines 31–36) appends one paragraph carrying the TOC field. -/
def add_toc_blocks : List Block := [Block.field toc_instr]

/-- The document-construction part of `main` (lines 175–179): optionally
insert the TOC field, then project the root topic from level 1 with the
image width clamped to at least `0.1`. -/
def build_document (sk : Sink) (no_toc : Bool) (root : Node)
    (assets : String → Option (List Nat)) (img_width : ℚ) : List Block :=
  (if no_toc then [] else add_toc_blocks)
    ++ add_topic sk assets root 1 (max img_width (1 / 10))

/-! ### Archive reading and resource extraction

A zip archive that opens successfully is modelled by its name list and a
read function; `ZipOpen.corrupt` models a file `zipfile.ZipFile` refuses
to open.  The JSON decoding pipeline (`json.loads`, `doc[0]`,
`sheet.get("rootTopic")`) is abstracted by a `parseRoot` parameter:
`none` models an exception anywhere in that pipeline, `some r` a normal
return of the (possibly absent) root topic. -/

/-- An opened zip archive: its member names and their contents. -/
structure ZipData where
  names : List String
  read : String → List Nat

/-- The outcome of `zipfile.ZipFile(path, "r")`: a corrupt file raises,
otherwise the archive's contents are available. -/
inductive ZipOpen where
  | corrupt
  | ok (zf : ZipData)

/-- Python `dict` lookup over an insertion-ordered association list:
the most recent binding of the key wins. -/
def dict_get (m : List (String × List Nat)) (k : String) : Option (List Nat) :=
  (m.reverse.find? (fun p => p.1 == k)).map Prod.snd

/-- Function `extract_resources` (lines 39–50): every non-directory member under
`resources/` is stored under its own name and under the
`"xap:"`-prefixed alias, with the same bytes. -/
def extract_resources (zf : ZipData) : List (String × List Nat) :=
  (zf.names.filter
      (fun n => strStartsWith n "resources/" && !strEndsWith n "/")).flatMap
    (fun n => [(n, zf.read n), ("xap:" ++ n, zf.read n)])

/-- The no-result pair `(None, \x7b\x7d)` that `load_from_content_json`
returns on any failure; this is the format-failure signal of the Archive
Reader contract (the spec's `FormatError` outcome). -/
def format_failure : Option Node × List (String × List Nat) := (none, [])

/-- Function `load_from_content_json` (lines 53–67): on a corrupt archive or when
no member name ends in `content.json`, return the no-result pair;
otherwise extract the resources, decode the first candidate member, and
return the root topic with the resources (decoding exceptions also
degrade to the no-result pair). -/
def load_from_content_json (parseRoot : List Nat → Option (Option Node))
    (z : ZipOpen) : Option Node × List (String × List Nat) :=
  match z with
  | .corrupt => format_failure
  | .ok zf =>
    match zf.names.filter (fun n => strEndsWith n "content.json") with
    | [] => format_failure
    | c :: _ =>
      let assets := extract_resources zf
      match parseRoot (zf.read c) with
      | none => format_failure
      | some r => (r, assets)

/-- View the `topics` mapping as its insertion-ordered list of
(group name, member list) pairs. -/
def GroupList.groups : GroupList → List (String × List Node)
  | .nil => []
  | .cons name g rest => (name, g.toList) :: rest.groups

/-! ### Concrete fixtures used by witness statements -/

/-- A sink on which every fallible operation succeeds and sniffing
recognises no format. -/
def sinkOk : Sink := ⟨fun _ => true, fun _ => some none, fun _ => true⟩

/-- A sink on which indentation raises, sniffing raises and pictures are
rejected. -/
def sinkBad : Sink := ⟨fun _ => false, fun _ => none, fun _ => false⟩

/-- An empty resource mapping. -/
def noAssets : String → Option (List Nat) := fun _ => none

/-- A childless node titled `B`. -/
def leafB : Node := .mk (.str "B") none .nil .nil .nil

/-- A root node titled `A` with the single attached child `leafB`. -/
def rootA : Node := .mk (.str "A") none .nil (.cons leafB .nil) .nil

/-- A childless node carrying an image reference. -/
def leafImg : Node :=
  .mk (.str "I") (some ⟨some "resources/img.png"⟩) .nil .nil .nil

/-! ### Structure of the projector's output -/

theorem add_topic_list_eq (sk : Sink) (assets : String → Option (List Nat))
    (level : Nat) (w : ℚ) :
    ∀ nl : NodeList, add_topic_list sk assets nl level w =
      (nl.toList.map (fun c => add_topic sk assets c level w)).flatten
  | .nil => rfl
  | .cons c rest => by
    rw [add_topic_list, add_topic_list_eq sk assets level w rest]
    simp [NodeList.toList]

theorem add_topic_groups_eq (sk : Sink) (assets : String → Option (List Nat))
    (level : Nat) (w : ℚ) :
    ∀ gl : GroupList, add_topic_groups sk assets gl level w =
      (gl.childNodes.map (fun c => add_topic sk assets c level w)).flatten
  | .nil => rfl
  | .cons name g rest => by
    rw [add_topic_groups, add_topic_groups_eq sk assets level w rest,
      add_topic_list_eq sk assets level w g]
    simp [GroupList.childNodes]

/-- One unfolding of `add_topic`: the node's own text block first, then
its picture blocks, then the projections of all children of
`iter_children`, in order, at `level + 1`. -/
theorem add_topic_eq (sk : Sink) (assets : String → Option (List Nat))
    (t : Node) (level : Nat) (w : ℚ) :
    add_topic sk assets t level w =
      text_block sk t level
        :: (picture_blocks sk assets t w
            ++ ((iter_children t).map
                (fun c => add_topic sk assets c (level + 1) w)).flatten) := by
  match t with
  | .mk ti im tp att det =>
    rw [add_topic, add_topic_groups_eq, add_topic_list_eq, add_topic_list_eq,
      iter_children]
    simp

/-- The node's own block is always a text block (heading or paragraph). -/
theorem isTextBlock_text_block (sk : Sink) (t : Node) (level : Nat) :
    isTextBlock (text_block sk t level) = true := by
  rw [text_block]
  split
  · rfl
  · rfl

/-- The node's own block carries its sanitised title. -/
theorem blockText_text_block (sk : Sink) (t : Node) (level : Nat) :
    blockText (text_block sk t level) = some (sanitize_title (raw_title t)) := by
  rw [text_block]
  split
  · rfl
  · rfl

/-- Image embedding emits no text block. -/
theorem countP_isTextBlock_picture_blocks (sk : Sink)
    (assets : String → Option (List Nat)) (t : Node) (w : ℚ) :
    List.countP isTextBlock (picture_blocks sk assets t w) = 0 := by
  rw [picture_blocks]
  rcases imageSrc t with _ | src
  · rfl
  repeat' split
  all_goals rfl

/-- Image embedding emits no field block. -/
theorem countP_isFieldBlock_picture_blocks (sk : Sink)
    (assets : String → Option (List Nat)) (t : Node) (w : ℚ) :
    List.countP isFieldBlock (picture_blocks sk assets t w) = 0 := by
  rw [picture_blocks]
  rcases imageSrc t with _ | src
  · rfl
  repeat' split
  all_goals rfl

mutual
/-- The projection of a subtree emits exactly one text block per node. -/
theorem countText_add_topic (sk : Sink) (assets : String → Option (List Nat)) :
    ∀ (t : Node) (level : Nat) (w : ℚ),
      List.countP isTextBlock (add_topic sk assets t level w) = t.count
  | .mk ti im tp att det, level, w => by
    rw [add_topic, Node.count]
    simp only [List.countP_cons, List.countP_append,
      countP_isTextBlock_picture_blocks,
      countText_add_topic_groups sk assets tp (level + 1) w,
      countText_add_topic_list sk assets att (level + 1) w,
      countText_add_topic_list sk assets det (level + 1) w,
      isTextBlock_text_block, if_true]

/-- One text block per node, over the groups of a `topics` mapping. -/
theorem countText_add_topic_groups (sk : Sink)
    (assets : String → Option (List Nat)) :
    ∀ (gl : GroupList) (level : Nat) (w : ℚ),
      List.countP isTextBlock (add_topic_groups sk assets gl level w) = gl.count
  | .nil, _, _ => rfl
  | .cons name g rest, level, w => by
    rw [add_topic_groups, GroupList.count, List.countP_append,
      countText_add_topic_list sk assets g level w,
      countText_add_topic_groups sk assets rest level w]

/-- One text block per node, over a list of nodes. -/
theorem countText_add_topic_list (sk : Sink)
    (assets : String → Option (List Nat)) :
    ∀ (nl : NodeList) (level : Nat) (w : ℚ),
      List.countP isTextBlock (add_topic_list sk assets nl level w) = nl.count
  | .nil, _, _ => rfl
  | .cons c rest, level, w => by
    rw [add_topic_list, NodeList.count, List.countP_append,
      countText_add_topic sk assets c level w,
      countText_add_topic_list sk assets rest level w]
end

mutual
/-- The projection of a subtree emits no field (TOC) block. -/
theorem countField_add_topic (sk : Sink) (assets : String → Option (List Nat)) :
    ∀ (t : Node) (level : Nat) (w : ℚ),
      List.countP isFieldBlock (add_topic sk assets t level w) = 0
  | .mk ti im tp att det, level, w => by
    have h : isFieldBlock (text_block sk (.mk ti im tp att det) level) = false := by
      rw [text_block]
      split
      · rfl
      · rfl
    rw [add_topic]
    simp only [List.countP_cons, List.countP_append,
      countP_isFieldBlock_picture_blocks,
      countField_add_topic_groups sk assets tp (level + 1) w,
      countField_add_topic_list sk assets att (level + 1) w,
      countField_add_topic_list sk assets det (level + 1) w, h]
    simp

/-- No field block from the groups of a `topics` mapping. -/
theorem countField_add_topic_groups (sk : Sink)
    (assets : String → Option (List Nat)) :
    ∀ (gl : GroupList) (level : Nat) (w : ℚ),
      List.countP isFieldBlock (add_topic_groups sk assets gl level w) = 0
  | .nil, _, _ => rfl
  | .cons name g rest, level, w => by
    rw [add_topic_groups, List.countP_append,
      countField_add_topic_list sk assets g level w,
      countField_add_topic_groups sk assets rest level w]

/-- No field block from a list of nodes. -/
theorem countField_add_topic_list (sk : Sink)
    (assets : String → Option (List Nat)) :
    ∀ (nl : NodeList) (level : Nat) (w : ℚ),
      List.countP isFieldBlock (add_topic_list sk assets nl level w) = 0
  | .nil, _, _ => rfl
  | .cons c rest, level, w => by
    rw [add_topic_list, List.countP_append,
      countField_add_topic sk assets c level w,
      countField_add_topic_list sk assets rest level w]
end

/-! ### Title sanitisation -/

theorem mem_of_mem_pyStrip {c : Char} {l : List Char} (h : c ∈ pyStrip l) :
    c ∈ l := by
  have h1 : pyStrip l <+: List.dropWhile pyIsSpace l :=
    List.rdropWhile_prefix _ _
  have h2 : List.dropWhile pyIsSpace l <:+ l := List.dropWhile_suffix _
  exact h2.sublist.mem (h1.sublist.mem h)

theorem pyIsSpace_head_dropWhile {l : List Char} {a : Char} {m : List Char}
    (h : List.dropWhile pyIsSpace l = a :: m) : pyIsSpace a = false := by
  induction l with
  | nil => simp at h
  | cons x xs ih =>
    rw [List.dropWhile_cons] at h
    split at h
    · exact ih h
    · rename_i hx
      cases h
      simpa using hx

theorem dropWhile_pyStrip (l : List Char) :
    List.dropWhile pyIsSpace (pyStrip l) = pyStrip l := by
  cases hps : pyStrip l with
  | nil => rfl
  | cons b bs =>
    cases hdw : List.dropWhile pyIsSpace l with
    | nil =>
      rw [pyStrip, hdw] at hps
      simp at hps
    | cons a m =>
      have hpre : pyStrip l <+: List.dropWhile pyIsSpace l :=
        List.rdropWhile_prefix _ _
      rw [hps, hdw] at hpre
      have hb : b = a := (List.cons_prefix_cons.mp hpre).1
      have ha : pyIsSpace a = false := pyIsSpace_head_dropWhile hdw
      rw [List.dropWhile_cons, hb, ha]
      simp

theorem pyStrip_idem (l : List Char) : pyStrip (pyStrip l) = pyStrip l := by
  show List.rdropWhile pyIsSpace (List.dropWhile pyIsSpace (pyStrip l)) = pyStrip l
  rw [dropWhile_pyStrip]
  show List.rdropWhile pyIsSpace
      (List.rdropWhile pyIsSpace (List.dropWhile pyIsSpace l)) = pyStrip l
  rw [List.rdropWhile_idempotent]
  rfl

theorem sanitize_title_ne_empty (s : String) : sanitize_title s ≠ "" := by
  rw [sanitize_title]
  split
  · decide
  · assumption

theorem sanitize_title_idem (s : String) :
    sanitize_title (sanitize_title s) = sanitize_title s := by
  by_cases h : String.mk (pyStrip (s.toList.filter keepChar)) = ""
  · have hs : sanitize_title s = "." := by
      rw [sanitize_title, if_pos h]
    rw [hs]
    decide
  · have hs : sanitize_title s = String.mk (pyStrip (s.toList.filter keepChar)) := by
      rw [sanitize_title, if_neg h]
    rw [hs]
    have hfil : (pyStrip (s.toList.filter keepChar)).filter keepChar =
        pyStrip (s.toList.filter keepChar) := by
      rw [List.filter_eq_self]
      intro a ha
      exact List.of_mem_filter (mem_of_mem_pyStrip ha)
    have htl : (String.mk (pyStrip (s.toList.filter keepChar))).toList =
        pyStrip (s.toList.filter keepChar) := rfl
    rw [sanitize_title, htl, hfil, pyStrip_idem, if_neg h]

theorem keepChar_control_isSpace {c : Char} (hk : keepChar c = true)
    (hlt : c < ' ') : pyIsSpace c = true := by
  rw [keepChar] at hk
  simp only [Bool.or_eq_true, decide_eq_true_eq, beq_iff_eq] at hk
  rcases hk with ((h | h) | h) | h
  · exact absurd h (not_le_of_lt hlt)
  · subst h
    decide
  · subst h
    decide
  · subst h
    decide

theorem sanitize_title_all_control (s : String)
    (h : ∀ c ∈ s.toList, c < ' ') : sanitize_title s = "." := by
  have hdrop : List.dropWhile pyIsSpace (s.toList.filter keepChar) = [] := by
    rw [List.dropWhile_eq_nil_iff]
    intro c hc
    exact keepChar_control_isSpace (List.of_mem_filter hc)
      (h c (List.mem_of_mem_filter hc))
  have hstrip : pyStrip (s.toList.filter keepChar) = [] := by
    rw [pyStrip, hdrop]
    rfl
  rw [sanitize_title, hstrip]
  rfl

/-! ### Resource extraction -/

/-- A string under the `resources/` prefix is never an aliased key. -/
theorem resources_ne_xap (n p : String)
    (h : strStartsWith p "resources/" = true) : p ≠ "xap:" ++ n := by
  intro he
  rw [strStartsWith, List.isPrefixOf_iff_prefix] at h
  have hd : p.toList = 'x' :: 'a' :: 'p' :: ':' :: n.toList := by
    rw [he]
    show ("xap:" ++ n).data = _
    rw [String.data_append]
    rfl
  rw [hd] at h
  have : 'r' = 'x' := by
    have hc : ('r' :: "esources/".toList) <+: ('x' :: 'a' :: 'p' :: ':' :: n.toList) := h
    exact (List.cons_prefix_cons.mp hc).1
  simp at this

/-- Aliasing `"xap:" ++ ·` is injective. -/
theorem xap_append_inj {n p : String} (h : "xap:" ++ n = "xap:" ++ p) : n = p := by
  have hd : ("xap:" ++ n).data = ("xap:" ++ p).data := by rw [h]
  rw [String.data_append, String.data_append] at hd
  have h2 := List.append_cancel_left hd
  cases n
  cases p
  simp only at h2
  rw [h2]

/-- If a key occurs in an association list and every binding of that key
carries the same value, the Python-dict lookup returns that value. -/
theorem dict_get_eq_some (m : List (String × List Nat)) (k : String)
    (v : List Nat) (hex : ∃ pr ∈ m, pr.1 = k)
    (hall : ∀ pr ∈ m, pr.1 = k → pr.2 = v) : dict_get m k = some v := by
  have hsome : (m.reverse.find? (fun pr => pr.1 == k)).isSome = true := by
    rw [List.find?_isSome]
    obtain ⟨pr, hm, hk⟩ := hex
    exact ⟨pr, List.mem_reverse.mpr hm, by simp [hk]⟩
  obtain ⟨pr, hfind⟩ := Option.isSome_iff_exists.mp hsome
  have hk : pr.1 = k := by
    have := List.find?_some hfind
    simpa using this
  have hm : pr ∈ m := List.mem_reverse.mp (List.mem_of_find?_eq_some hfind)
  rw [dict_get, hfind]
  simp [hall pr hm hk]

/-! ### Termination of the projection -/

mutual
/-- Any fuel at least the structural size of the subtree suffices. -/
theorem add_topic_fuel_suff (sk : Sink) (assets : String → Option (List Nat)) :
    ∀ (t : Node) (fuel level : Nat) (w : ℚ), t.fsize ≤ fuel →
      add_topic_fuel sk assets fuel t level w =
        some (add_topic sk assets t level w)
  | .mk ti im tp att det, 0, _, _, h => by
    rw [Node.fsize] at h
    omega
  | .mk ti im tp att det, fuel + 1, level, w, h => by
    rw [Node.fsize] at h
    rw [add_topic_fuel,
      add_topic_groups_fuel_suff sk assets tp fuel (level + 1) w (by omega),
      add_topic_list_fuel_suff sk assets att fuel (level + 1) w (by omega),
      add_topic_list_fuel_suff sk assets det fuel (level + 1) w (by omega),
      add_topic]
    rfl

/-- Fuel sufficiency over the groups of a `topics` mapping. -/
theorem add_topic_groups_fuel_suff (sk : Sink)
    (assets : String → Option (List Nat)) :
    ∀ (gl : GroupList) (fuel level : Nat) (w : ℚ), gl.fsize ≤ fuel →
      add_topic_groups_fuel sk assets fuel gl level w =
        some (add_topic_groups sk assets gl level w)
  | gl, 0, _, _, h => by
    cases gl <;> rw [GroupList.fsize] at h <;> omega
  | .nil, fuel + 1, _, _, _ => rfl
  | .cons name g rest, fuel + 1, level, w, h => by
    rw [GroupList.fsize] at h
    rw [add_topic_groups_fuel,
      add_topic_list_fuel_suff sk assets g fuel level w (by omega),
      add_topic_groups_fuel_suff sk assets rest fuel level w (by omega),
      add_topic_groups]
    rfl

/-- Fuel sufficiency over a list of child nodes. -/
theorem add_topic_list_fuel_suff (sk : Sink)
    (assets : String → Option (List Nat)) :
    ∀ (nl : NodeList) (fuel level : Nat) (w : ℚ), nl.fsize ≤ fuel →
      add_topic_list_fuel sk assets fuel nl level w =
        some (add_topic_list sk assets nl level w)
  | nl, 0, _, _, h => by
    cases nl <;> rw [NodeList.fsize] at h <;> omega
  | .nil, fuel + 1, _, _, _ => rfl
  | .cons c rest, fuel + 1, level, w, h => by
    rw [NodeList.fsize] at h
    rw [add_topic_list_fuel,
      add_topic_fuel_suff sk assets c fuel level w (by omega),
      add_topic_list_fuel_suff sk assets rest fuel level w (by omega),
      add_topic_list]
    rfl
end

/-- A node of a list is structurally smaller than the list. -/
theorem fsize_lt_of_mem_toList :
    ∀ (nl : NodeList) (c : Node), c ∈ nl.toList → c.fsize < nl.fsize
  | .nil, c, h => by simp [NodeList.toList] at h
  | .cons hd tl, c, h => by
    rw [NodeList.toList] at h
    rw [NodeList.fsize]
    rcases List.mem_cons.mp h with h | h
    · subst h
      omega
    · have := fsize_lt_of_mem_toList tl c h
      omega

/-- A node of a group is structurally smaller than the `topics` mapping. -/
theorem fsize_lt_of_mem_childNodes :
    ∀ (gl : GroupList) (c : Node), c ∈ gl.childNodes → c.fsize < gl.fsize
  | .nil, c, h => by simp [GroupList.childNodes] at h
  | .cons name g rest, c, h => by
    rw [GroupList.childNodes] at h
    rw [GroupList.fsize]
    rcases List.mem_append.mp h with h | h
    · have := fsize_lt_of_mem_toList g c h
      omega
    · have := fsize_lt_of_mem_childNodes rest c h
      omega

/-- Every child yielded by `iter_children` is structurally smaller than
its parent: the recursion of `add_topic` strictly descends. -/
theorem fsize_lt_of_mem_iter_children (t : Node) (c : Node)
    (h : c ∈ iter_children t) : c.fsize < t.fsize := by
  match t with
  | .mk ti im tp att det =>
    rw [iter_children] at h
    rw [Node.fsize]
    rcases List.mem_append.mp h with h | h
    · have := fsize_lt_of_mem_childNodes tp c h
      omega
    · rcases List.mem_append.mp h with h | h
      · have := fsize_lt_of_mem_toList att c h
        omega
      · have := fsize_lt_of_mem_toList det c h
        omega

/-! ### The two child schemas -/

/-- The flattened children of the grouped shape are exactly the members
of every group, in group-iteration order. -/
theorem childNodes_eq_flatten_groups :
    ∀ gl : GroupList, gl.childNodes = (gl.groups.map Prod.snd).flatten
  | .nil => rfl
  | .cons name g rest => by
    rw [GroupList.childNodes, GroupList.groups,
      childNodes_eq_flatten_groups rest]
    simp

/-! ### Claims -/

/-- C1: for every node and level ≥ 1, `add_topic` emits exactly one text
block for the node — the first block of its output, followed only by
picture blocks and the children's output: a heading at `min(level, 9)`
when `level = 1` or the node has a child under either schema shape, and
otherwise a single bulleted paragraph with left indent
`0.25 * (level - 1)` inches; a failing indentation assignment is
swallowed, leaving the unindented paragraph; it never emits both a
heading and a paragraph for one node. -/
theorem claim_C1_emission (sk : Sink) (assets : String → Option (List Nat))
    (t : Node) (level : Nat) (w : ℚ) (h : 1 ≤ level) :
    add_topic sk assets t level w =
      text_block sk t level
        :: (picture_blocks sk assets t w
            ++ ((iter_children t).map
                (fun c => add_topic sk assets c (level + 1) w)).flatten) ∧
    (∀ b ∈ picture_blocks sk assets t w, isTextBlock b = false) ∧
    ((level = 1 ∨ iter_children t ≠ []) →
      text_block sk t level =
        Block.heading (sanitize_title (raw_title t)) (min level 9)) ∧
    (level ≠ 1 → iter_children t = [] → sk.indentOk level = true →
      text_block sk t level =
        Block.para (sanitize_title (raw_title t))
          (some ((1 / 4 : ℚ) * ((level : ℚ) - 1)))) ∧
    (level ≠ 1 → iter_children t = [] → sk.indentOk level = false →
      text_block sk t level = Block.para (sanitize_title (raw_title t)) none) := by
  refine ⟨add_topic_eq sk assets t level w, ?_, ?_, ?_, ?_⟩
  · intro b hb
    have h0 := countP_isTextBlock_picture_blocks sk assets t w
    rw [List.countP_eq_zero] at h0
    simpa using h0 b hb
  · intro hc
    rw [text_block, if_pos]
    rcases hc with hc | hc
    · exact Or.inl hc
    · exact Or.inr (by simpa [List.isEmpty_iff] using hc)
  · intro h1 h2 h3
    have hmax : max ((level : ℚ) - 1) 0 = (level : ℚ) - 1 := by
      have : (1 : ℚ) ≤ (level : ℚ) := by exact_mod_cast h
      rw [max_eq_left]
      linarith
    rw [text_block, if_neg, if_pos h3, hmax]
    rintro (hl | hl)
    · exact h1 hl
    · rw [h2] at hl
      simp at hl
  · intro h1 h2 h3
    rw [text_block, if_neg, if_neg (by simp [h3])]
    rintro (hl | hl)
    · exact h1 hl
    · rw [h2] at hl
      simp at hl

/-- C1 witness: a leaf node at level 2 on a sink where indentation
succeeds. -/
theorem claim_C1_emission_witness :
    add_topic sinkOk noAssets leafB 2 6 =
      text_block sinkOk leafB 2
        :: (picture_blocks sinkOk noAssets leafB 6
            ++ ((iter_children leafB).map
                (fun c => add_topic sinkOk noAssets c (2 + 1) 6)).flatten) ∧
    (∀ b ∈ picture_blocks sinkOk noAssets leafB 6, isTextBlock b = false) ∧
    ((2 = 1 ∨ iter_children leafB ≠ []) →
      text_block sinkOk leafB 2 =
        Block.heading (sanitize_title (raw_title leafB)) (min 2 9)) ∧
    (2 ≠ 1 → iter_children leafB = [] → sinkOk.indentOk 2 = true →
      text_block sinkOk leafB 2 =
        Block.para (sanitize_title (raw_title leafB))
          (some ((1 / 4 : ℚ) * ((2 : ℚ) - 1)))) ∧
    (2 ≠ 1 → iter_children leafB = [] → sinkOk.indentOk 2 = false →
      text_block sinkOk leafB 2 =
        Block.para (sanitize_title (raw_title leafB)) none) :=
  claim_C1_emission sinkOk noAssets leafB 2 6 (by decide)

/-- C2: projected from level 1, the output contains exactly as many text
blocks as the tree has nodes; the node's block precedes its subtree's
blocks, and the children are processed in `iter_children` order, each at
`level + 1` with the same assets and image width. -/
theorem claim_C2_block_count (sk : Sink) (assets : String → Option (List Nat))
    (t : Node) (level : Nat) (w : ℚ) :
    List.countP isTextBlock (add_topic sk assets t 1 w) = t.count ∧
    add_topic sk assets t level w =
      text_block sk t level
        :: (picture_blocks sk assets t w
            ++ ((iter_children t).map
                (fun c => add_topic sk assets c (level + 1) w)).flatten) :=
  ⟨countText_add_topic sk assets t 1 w, add_topic_eq sk assets t level w⟩

/-- C3: `iter_children` yields every member of every group of the
grouped shape in group-iteration order, then the `attached` list, then
the `detached` list; both shapes present at once simply concatenate, and
with neither shape present the result is empty. -/
theorem claim_C3_iter_children (ti : TitleVal) (im : Option Image)
    (tp : GroupList) (att det : NodeList) :
    iter_children (.mk ti im tp att det) =
      (tp.groups.map Prod.snd).flatten ++ (att.toList ++ det.toList) ∧
    (tp = .nil → att = .nil → det = .nil →
      iter_children (.mk ti im tp att det) = []) := by
  constructor
  · rw [iter_children, childNodes_eq_flatten_groups]
  · intro h1 h2 h3
    subst h1
    subst h2
    subst h3
    rfl

/-- C3 witness: both shapes simultaneously populated. -/
theorem claim_C3_iter_children_witness :
    iter_children (.mk (.str "R") none
        (.cons "g" (.cons leafB .nil) .nil) (.cons rootA .nil) .nil) =
      ((GroupList.cons "g" (.cons leafB .nil) .nil).groups.map Prod.snd).flatten
        ++ ((NodeList.cons rootA .nil).toList ++ NodeList.nil.toList) ∧
    (GroupList.cons "g" (.cons leafB .nil) .nil = .nil →
      NodeList.cons rootA .nil = .nil → NodeList.nil = .nil →
      iter_children (.mk (.str "R") none
        (.cons "g" (.cons leafB .nil) .nil) (.cons rootA .nil) .nil) = []) :=
  claim_C3_iter_children (.str "R") none
    (.cons "g" (.cons leafB .nil) .nil) (.cons rootA .nil) .nil

/-- C9: a node whose title key is absent, null or the empty string gets
the raw title `""`, whose sanitisation is the period fallback, so the
node's emitted text block carries exactly `"."`. -/
theorem claim_C9_title_fallback (sk : Sink)
    (assets : String → Option (List Nat)) (level : Nat) (w : ℚ)
    (ti : TitleVal) (im : Option Image) (tp : GroupList) (att det : NodeList)
    (h : ti = TitleVal.absent ∨ ti = TitleVal.null ∨ ti = TitleVal.str "") :
    raw_title (.mk ti im tp att det) = "" ∧
    sanitize_title "" = "." ∧
    ∃ rest, add_topic sk assets (.mk ti im tp att det) level w =
      text_block sk (.mk ti im tp att det) level :: rest ∧
      blockText (text_block sk (.mk ti im tp att det) level) = some "." := by
  have hraw : raw_title (.mk ti im tp att det) = "" := by
    rcases h with h | h | h <;> subst h <;> rfl
  refine ⟨hraw, by decide, _, add_topic_eq sk assets _ level w, ?_⟩
  rw [blockText_text_block, hraw]
  decide

/-- C9 witness: a null title at level 3. -/
theorem claim_C9_title_fallback_witness :
    raw_title (.mk .null none .nil .nil .nil) = "" ∧
    sanitize_title "" = "." ∧
    ∃ rest, add_topic sinkOk noAssets (.mk .null none .nil .nil .nil) 3 6 =
      text_block sinkOk (.mk .null none .nil .nil .nil) 3 :: rest ∧
      blockText (text_block sinkOk (.mk .null none .nil .nil .nil) 3) =
        some "." :=
  claim_C9_title_fallback sinkOk noAssets 3 6 .null none .nil .nil .nil
    (Or.inr (Or.inl rfl))

/-- C10: the projection terminates on every finite tree: the structural
size of the tree is enough fuel for the fuel-indexed projector to return
the projection, and every child yielded by `iter_children` is strictly
smaller than its parent. -/
theorem claim_C10_termination (sk : Sink)
    (assets : String → Option (List Nat)) (t : Node) (level : Nat) (w : ℚ) :
    (∃ fuel, add_topic_fuel sk assets fuel t level w =
      some (add_topic sk assets t level w)) ∧
    ∀ c ∈ iter_children t, c.fsize < t.fsize :=
  ⟨⟨t.fsize, add_topic_fuel_suff sk assets t t.fsize level w le_rfl⟩,
   fun c hc => fsize_lt_of_mem_iter_children t c hc⟩

/-- C4: title sanitisation is idempotent, an empty or all-control-character
title collapses to the single period, and a text block handed to the sink
never carries the empty title. -/
theorem claim_C4_sanitize_idempotent (s : String) :
    sanitize_title (sanitize_title s) = sanitize_title s ∧
    sanitize_title s ≠ "" ∧
    ((∀ c ∈ s.toList, c < ' ') → sanitize_title s = ".") ∧
    sanitize_title "" = "." ∧
    (∀ (sk : Sink) (t : Node) (level : Nat),
      blockText (text_block sk t level) ≠ some "") := by
  refine ⟨sanitize_title_idem s, sanitize_title_ne_empty s,
    sanitize_title_all_control s, by decide, ?_⟩
  intro sk t level hc
  rw [blockText_text_block] at hc
  exact sanitize_title_ne_empty (raw_title t) (by injection hc)

/-- C4 witness: the all-control title `"\t"`. -/
theorem claim_C4_sanitize_idempotent_witness :
    sanitize_title (sanitize_title "\t") = sanitize_title "\t" ∧
    sanitize_title "\t" ≠ "" ∧
    ((∀ c ∈ ("\t" : String).toList, c < ' ') → sanitize_title "\t" = ".") ∧
    sanitize_title "" = "." ∧
    (∀ (sk : Sink) (t : Node) (level : Nat),
      blockText (text_block sk t level) ≠ some "") :=
  claim_C4_sanitize_idempotent "\t"

/-- C5: every non-directory archive member under `resources/` is stored
by `extract_resources` under both its raw path and the `"xap:"`-aliased
key, and both keys map to the same bytes. -/
theorem claim_C5_resource_alias (zf : ZipData) (p : String)
    (hmem : p ∈ zf.names) (hpre : strStartsWith p "resources/" = true)
    (hdir : strEndsWith p "/" = false) :
    dict_get (extract_resources zf) p = some (zf.read p) ∧
    dict_get (extract_resources zf) ("xap:" ++ p) = some (zf.read p) := by
  have hpF : p ∈ zf.names.filter
      (fun n => strStartsWith n "resources/" && !strEndsWith n "/") :=
    List.mem_filter.mpr ⟨hmem, by rw [hpre, hdir]; rfl⟩
  constructor
  · apply dict_get_eq_some
    · exact ⟨(p, zf.read p), List.mem_flatMap.mpr ⟨p, hpF, by simp⟩, rfl⟩
    · intro pr hpr hk
      obtain ⟨n, hnF, hpr2⟩ := List.mem_flatMap.mp hpr
      simp only [List.mem_cons, List.mem_singleton, List.not_mem_nil,
        or_false] at hpr2
      rcases hpr2 with h2 | h2
      · subst h2
        simp only at hk
        rw [hk]
      · subst h2
        simp only at hk
        exact absurd hk.symm (resources_ne_xap n p hpre)
  · apply dict_get_eq_some
    · exact ⟨("xap:" ++ p, zf.read p),
        List.mem_flatMap.mpr ⟨p, hpF, by simp⟩, rfl⟩
    · intro pr hpr hk
      obtain ⟨n, hnF, hpr2⟩ := List.mem_flatMap.mp hpr
      have hnres : strStartsWith n "resources/" = true := by
        have hb := (List.mem_filter.mp hnF).2
        rw [Bool.and_eq_true] at hb
        exact hb.1
      simp only [List.mem_cons, List.mem_singleton, List.not_mem_nil,
        or_false] at hpr2
      rcases hpr2 with h2 | h2
      · subst h2
        simp only at hk
        exact absurd hk (resources_ne_xap p n hnres)
      · subst h2
        simp only at hk
        rw [xap_append_inj hk]

/-- C5 witness: a one-entry archive. -/
theorem claim_C5_resource_alias_witness :
    dict_get (extract_resources ⟨["resources/img.png"], fun _ => [137, 80]⟩)
      "resources/img.png" = some [137, 80] ∧
    dict_get (extract_resources ⟨["resources/img.png"], fun _ => [137, 80]⟩)
      ("xap:" ++ "resources/img.png") = some [137, 80] :=
  claim_C5_resource_alias ⟨["resources/img.png"], fun _ => [137, 80]⟩
    "resources/img.png" (by decide) (by decide) (by decide)

/-- C6: when the source cannot be opened as a zip archive, or the archive
has no member whose name ends in `content.json`, the Archive Reader
yields the no-result failure signal (the spec's `FormatError` outcome:
the code converts every such failure into the `(None, \x7b\x7d)` pair). -/
theorem claim_C6_format_failure (parseRoot : List Nat → Option (Option Node))
    (z : ZipOpen)
    (h : z = ZipOpen.corrupt ∨
      ∃ zf, z = ZipOpen.ok zf ∧
        ∀ n ∈ zf.names, strEndsWith n "content.json" = false) :
    load_from_content_json parseRoot z = format_failure := by
  rcases h with h | ⟨zf, hz, hn⟩
  · subst h
    rfl
  · subst hz
    rw [load_from_content_json]
    have hf : zf.names.filter (fun n => strEndsWith n "content.json") = [] := by
      rw [List.filter_eq_nil_iff]
      intro n hmem
      simp [hn n hmem]
    rw [hf]

/-- C6 witness: a corrupt archive. -/
theorem claim_C6_format_failure_witness :
    load_from_content_json (fun _ => none) ZipOpen.corrupt = format_failure :=
  claim_C6_format_failure (fun _ => none) ZipOpen.corrupt (Or.inl rfl)

/-- C7: when the node's image source is missing from the resource
mapping, the sniffed format is unsupported, the sniffer raises, or the
sink rejects the picture, no picture block is emitted and no exception
propagates: the node's text block and all descendant blocks are emitted
exactly as usual. -/
theorem claim_C7_image_skip (sk : Sink) (assets : String → Option (List Nat))
    (t : Node) (level : Nat) (w : ℚ)
    (h : ∀ src, imageSrc t = some src → src ≠ "" →
      assets src = none ∨
      ∃ data, assets src = some data ∧ data ≠ [] ∧
        (sk.sniff data = none ∨
         (∃ kind, sk.sniff data = some kind ∧ supportedKind kind = false) ∨
         sk.pictureOk data = false)) :
    picture_blocks sk assets t w = [] ∧
    add_topic sk assets t level w =
      text_block sk t level
        :: ((iter_children t).map
            (fun c => add_topic sk assets c (level + 1) w)).flatten := by
  have hpb : picture_blocks sk assets t w = [] := by
    cases hsrc : imageSrc t with
    | none => simp [picture_blocks, hsrc]
    | some src =>
      by_cases hse : src = ""
      · simp [picture_blocks, hsrc, hse]
      · rcases h src hsrc hse with ha | ⟨data, hd, hne, hrest⟩
        · simp [picture_blocks, hsrc, hse, ha]
        · rcases hrest with hs | ⟨kind, hk, hunsup⟩ | hpic
          · simp [picture_blocks, hsrc, hse, hd, hne, hs]
          · simp [picture_blocks, hsrc, hse, hd, hne, hk, hunsup]
          · cases hsn : sk.sniff data with
            | none => simp [picture_blocks, hsrc, hse, hd, hne, hsn]
            | some kind =>
              simp [picture_blocks, hsrc, hse, hd, hne, hsn, hpic]
  refine ⟨hpb, ?_⟩
  rw [add_topic_eq, hpb]
  rfl

/-- C7 witness: an image whose source is absent from the mapping. -/
theorem claim_C7_image_skip_witness :
    picture_blocks sinkOk noAssets leafImg 6 = [] ∧
    add_topic sinkOk noAssets leafImg 2 6 =
      text_block sinkOk leafImg 2
        :: ((iter_children leafImg).map
            (fun c => add_topic sinkOk noAssets c (2 + 1) 6)).flatten :=
  claim_C7_image_skip sinkOk noAssets leafImg 2 6
    (fun _ _ _ => Or.inl rfl)

/-- C8: with `--no-toc` the built document has zero field-instruction
blocks, and the TOC-enabled document is exactly the same block sequence
with one extra leading TOC field whose instruction covers heading levels
1–3. -/
theorem claim_C8_toc (sk : Sink) (root : Node)
    (assets : String → Option (List Nat)) (w : ℚ) :
    List.countP isFieldBlock (build_document sk true root assets w) = 0 ∧
    build_document sk false root assets w =
      Block.field toc_instr :: build_document sk true root assets w ∧
    List.countP isFieldBlock (build_document sk false root assets w) = 1 ∧
    toc_instr = "TOC \\o \x221-3\x22 \\h \\z \\u" := by
  have h0 : List.countP isFieldBlock
      (add_topic sk assets root 1 (max w (1 / 10))) = 0 :=
    countField_add_topic sk assets root 1 (max w (1 / 10))
  refine ⟨?_, ?_, ?_, rfl⟩
  · rw [build_document, if_pos rfl, List.nil_append]
    exact h0
  · rw [build_document, build_document, if_pos rfl, List.nil_append]
    rfl
  · rw [build_document, if_neg (by simp), add_toc_blocks,
      List.singleton_append, List.countP_cons, h0]
    rfl

end XmindToDocx

